import Mathlib

/-!
Verification of the Universal Connectivity extension subsystem (UCEP core):
command parser, manifest/offer registry (both the pubsub-based and the
identify-based ExtensionManager variants), and the command execution engine.

The definitions below are shallow embeddings of the TypeScript source:
JavaScript Map objects become association lists that preserve insertion
order, dynamic (any-typed) JSON values become the JsVal inductive, and
async network effects become explicit parameters (a fetch outcome, a
per-peer attempt oracle).
-/

/-- Dynamic JavaScript value, as seen by the loose runtime shape checks of
isValidManifest. Only the shapes the validator distinguishes are modelled. -/
inductive JsVal where
  | vstr (s : String)
  | vnum (n : Int)
  | vbool (b : Bool)
  | varr (elems : List JsVal)
  | vnull

/-- A manifest as received from the network before validation: every field is
an optional dynamic value (none models a missing / undefined field).
Fields follow src/lib/extension-types.ts (ExtensionManifest). -/
structure RawManifest where
  id : Option JsVal
  name : Option JsVal
  description : Option JsVal
  icon : Option JsVal
  publicUrl : Option JsVal
  version : Option JsVal
  commands : Option JsVal
  author : Option JsVal

/-- Embedding of a JavaScript Map lookup (Map.prototype.get) over an
insertion-ordered association list. -/
def jsMapGet {V : Type} (m : List (String × V)) (k : String) : Option V :=
  match m with
  | [] => none
  | e :: rest => if e.1 == k then some e.2 else jsMapGet rest k

/-- Embedding of Map.prototype.has. -/
def jsMapHas {V : Type} (m : List (String × V)) (k : String) : Bool :=
  (jsMapGet m k).isSome

/-- Embedding of Map.prototype.set: replaces the value in place when the key
is present (keeping its position), otherwise appends at the end. -/
def jsMapSet {V : Type} (m : List (String × V)) (k : String) (v : V) : List (String × V) :=
  match m with
  | [] => [(k, v)]
  | e :: rest => if e.1 == k then (k, v) :: rest else e :: jsMapSet rest k v

/-- Embedding of Map.prototype.delete: removes the entry for the key.
A Map holds each key at most once, so removing every occurrence is the
removal of that one entry. -/
def jsMapDelete {V : Type} (m : List (String × V)) (k : String) : List (String × V) :=
  m.filter (fun e => !(e.1 == k))

/-- typeof x === "string", on an optional dynamic value. -/
def isStrVal : Option JsVal → Bool
  | some (JsVal.vstr _) => true
  | _ => false

/-- Array.isArray(x), on an optional dynamic value. -/
def isArrVal : Option JsVal → Bool
  | some (JsVal.varr _) => true
  | _ => false

/-- ExtensionManager.isValidManifest (identical in part_000 and part_001):
the manifest must be truthy and every required field must be a string,
with commands an array. No check on string contents is performed. -/
def isValidManifest : Option RawManifest → Bool
  | none => false
  | some m =>
    isStrVal m.id && isStrVal m.name && isStrVal m.description && isStrVal m.icon &&
      isStrVal m.publicUrl && isStrVal m.version && isArrVal m.commands

/-- The string carried by a validated manifest id (used as the Map key in
offers.set(manifest.id, offer)). -/
def manifestIdStr (m : RawManifest) : String :=
  match m.id with
  | some (JsVal.vstr s) => s
  | _ => ""

/-- A concrete all-string manifest with the given id, used for witnesses. -/
def mkManifest (s : String) : RawManifest :=
  { id := some (JsVal.vstr s), name := some (JsVal.vstr s),
    description := some (JsVal.vstr ""), icon := some (JsVal.vstr ""),
    publicUrl := some (JsVal.vstr ""), version := some (JsVal.vstr "1.0.0"),
    commands := some (JsVal.varr []), author := none }

/-- Whitespace test used by trim and by the whitespace split (the ASCII
fragment of the JavaScript \s class: space, tab, newline, vertical tab,
form feed, carriage return). -/
def jsIsWs (c : Char) : Bool :=
  c == ' ' || c == '\t' || c == '\n' || c == Char.ofNat 11 || c == Char.ofNat 12 || c == '\r'

/-- Embedding of String.prototype.trim: drop whitespace from both ends. -/
def jsTrim (s : String) : String :=
  String.mk (((s.data.dropWhile jsIsWs).reverse.dropWhile jsIsWs).reverse)

/-- Embedding of String.prototype.split with the regular expression of one
or more whitespace characters: the pieces between maximal whitespace runs,
with an empty piece at an end that starts or finishes with whitespace
(exactly the JavaScript behaviour, e.g. splitting "  x" gives ["", "x"]
and splitting "" gives [""]). Built right to left; on a whitespace
character a new empty piece is started unless the piece in front is still
empty (which collapses a run into one separator). -/
def splitWsStep (c : Char) (acc : List (List Char)) : List (List Char) :=
  if jsIsWs c then
    match acc with
    | [] :: _ => acc
    | _ => [] :: acc
  else
    match acc with
    | piece :: rest => (c :: piece) :: rest
    | [] => [[c]]

/-- The whitespace split itself: fold splitWsStep from the right, starting
with one empty piece. -/
def splitWs (l : List Char) : List (List Char) :=
  l.foldr splitWsStep [[]]

/-- Embedding of String.prototype.indexOf for a single character: the index
of the first occurrence, none when absent (JavaScript returns -1). -/
def jsIndexOf (l : List Char) (c : Char) : Option Nat :=
  match l with
  | [] => none
  | a :: as =>
    if a == c then some 0
    else (jsIndexOf as c).map (fun i => i + 1)

/-- Embedding of String.prototype.slice(-8): the last eight characters,
or the whole string when shorter. -/
def sliceLast8 (s : String) : String :=
  String.mk (s.data.drop (s.data.length - 8))

/-- Parsed command structure from src/lib/command-parser.ts. -/
structure ParsedCommand where
  extensionId : String
  command : String
  args : List String
  raw : String

/-- isCommand from command-parser.ts: the trimmed input starts with "/". -/
def isCommand (input : String) : Bool :=
  match (jsTrim input).data with
  | [] => false
  | c :: _ => c == '/'

/-- parseCommand from command-parser.ts: trim, require a leading slash,
drop it, split on whitespace runs, split the head token at its first dash
into extensionId and command (command "default" when no dash), remaining
tokens are the positional arguments. -/
def parseCommand (input : String) : Option ParsedCommand :=
  if !(isCommand (jsTrim input)) then none
  else
    match splitWs ((jsTrim input).data.drop 1) with
    | [] => none
    | firstPart :: args =>
      match jsIndexOf firstPart '-' with
      | none =>
        some { extensionId := String.mk firstPart, command := "default",
               args := args.map String.mk, raw := input }
      | some i =>
        some { extensionId := String.mk (firstPart.take i),
               command := String.mk (firstPart.drop (i + 1)),
               args := args.map String.mk, raw := input }

/-- isValidCommand from command-parser.ts: a parsed command is valid only
when both extensionId and command are non-empty. -/
def isValidCommand (parsed : Option ParsedCommand) : Bool :=
  match parsed with
  | none => false
  | some p => decide (0 < p.extensionId.length) && decide (0 < p.command.length)

/-- Offer record of the pubsub-based ExtensionManager (part_000):
manifest, receive timestamp, and the single publishing peer. -/
structure Offer0 where
  manifest : RawManifest
  timestamp : Nat
  publisherPeerId : String

/-- Installed-extension record of the pubsub-based ExtensionManager. -/
structure Installed0 where
  manifest : RawManifest
  installDate : Nat
  enabled : Bool

/-- State of the pubsub-based ExtensionManager: the offers Map and the
installed Map, both insertion ordered. -/
structure State0 where
  offers : List (String × Offer0)
  installed : List (String × Installed0)

/-- MAX_OFFERS constant of part_000. -/
def MAX_OFFERS : Nat := 10

/-- The comparator of the eviction sort in part_000 handleExtensionOffer:
ascending offer timestamp. -/
def offerLe (a b : String × Offer0) : Prop :=
  a.2.timestamp ≤ b.2.timestamp

instance : DecidableRel offerLe :=
  fun a b => inferInstanceAs (Decidable (a.2.timestamp ≤ b.2.timestamp))

instance : IsTotal (String × Offer0) offerLe :=
  ⟨fun a b => Nat.le_total a.2.timestamp b.2.timestamp⟩

instance : IsTrans (String × Offer0) offerLe :=
  ⟨fun _ _ _ hab hbc => Nat.le_trans hab hbc⟩

/-- isInstalled of the pubsub-based manager. -/
def isInstalled0 (st : State0) (x : String) : Bool :=
  jsMapHas st.installed x

/-- The offers.set(manifest.id, offer) step of part_000 handleExtensionOffer. -/
def offerInsert (st : State0) (m : RawManifest) (publisher : String) (now : Nat) :
    List (String × Offer0) :=
  jsMapSet st.offers (manifestIdStr m) { manifest := m, timestamp := now, publisherPeerId := publisher }

/-- The offers Map produced by recording a validated offer: store it,
then, when the Map holds more than MAX_OFFERS entries, delete the key of
the first entry of the list sorted ascending by timestamp (a stable sort,
as Array.prototype.sort is). -/
def offersAfterRecord (st : State0) (m : RawManifest) (publisher : String) (now : Nat) :
    List (String × Offer0) :=
  if MAX_OFFERS < (offerInsert st m publisher now).length then
    match ((offerInsert st m publisher now).insertionSort offerLe).head? with
    | some e => jsMapDelete (offerInsert st m publisher now) e.1
    | none => offerInsert st m publisher now
  else offerInsert st m publisher now

/-- handleExtensionOffer of part_000: validate the manifest, ignore the
offer when the extension is installed, otherwise store the offer under
manifest.id and enforce the cap. -/
def handleExtensionOffer (st : State0) (manifest : Option RawManifest)
    (publisher : String) (now : Nat) : State0 :=
  match manifest with
  | none => st
  | some m =>
    if !(isValidManifest (some m)) then st
    else if isInstalled0 st (manifestIdStr m) then st
    else { offers := offersAfterRecord st m publisher now, installed := st.installed }

/-- installExtension of part_000: move the offer into installed (no peer
set in this variant), delete the offer; false when the offer is missing
or the extension is already installed. -/
def installExtension0 (st : State0) (x : String) (now : Nat) : Bool × State0 :=
  match jsMapGet st.offers x with
  | none => (false, st)
  | some offer =>
    if isInstalled0 st x then (false, st)
    else
      (true,
       { offers := jsMapDelete st.offers x,
         installed := jsMapSet st.installed x
           { manifest := offer.manifest, installDate := now, enabled := true } })

/-- uninstallExtension of part_000. -/
def uninstallExtension0 (st : State0) (x : String) : Bool × State0 :=
  if !(isInstalled0 st x) then (false, st)
  else (true, { offers := st.offers, installed := jsMapDelete st.installed x })

/-- setExtensionEnabled of part_000. -/
def setExtensionEnabled0 (st : State0) (x : String) (b : Bool) : Bool × State0 :=
  match jsMapGet st.installed x with
  | none => (false, st)
  | some ext =>
    (true, { offers := st.offers,
             installed := jsMapSet st.installed x { ext with enabled := b } })

/-- dismissOffer of part_000. -/
def dismissOffer0 (st : State0) (x : String) : State0 :=
  { offers := jsMapDelete st.offers x, installed := st.installed }

/-- Reachable states of the pubsub-based ExtensionManager: the constructor
starts with an empty offers Map (installed is loaded from storage and can
hold anything), and every public mutation is a step. -/
inductive Reachable0 : State0 → Prop where
  | init (installed : List (String × Installed0)) :
      Reachable0 { offers := [], installed := installed }
  | offer (st : State0) (m : Option RawManifest) (publisher : String) (now : Nat) :
      Reachable0 st → Reachable0 (handleExtensionOffer st m publisher now)
  | install (st : State0) (x : String) (now : Nat) :
      Reachable0 st → Reachable0 (installExtension0 st x now).2
  | uninstall (st : State0) (x : String) :
      Reachable0 st → Reachable0 (uninstallExtension0 st x).2
  | setEnabled (st : State0) (x : String) (b : Bool) :
      Reachable0 st → Reachable0 (setExtensionEnabled0 st x b).2
  | dismiss (st : State0) (x : String) :
      Reachable0 st → Reachable0 (dismissOffer0 st x)

/-- Offer record of the identify-based ExtensionManager (part_001):
manifest, last-seen timestamp, and the list of peers offering it. -/
structure Offer1 where
  manifest : RawManifest
  timestamp : Nat
  peerIds : List String

/-- Installed-extension record of the identify-based ExtensionManager. -/
structure Installed1 where
  manifest : RawManifest
  installDate : Nat
  enabled : Bool
  peerIds : List String
  lastSuccessfulPeerId : Option String

/-- State of the identify-based ExtensionManager. -/
structure State1 where
  offers : List (String × Offer1)
  installed : List (String × Installed1)

/-- isInstalled of the identify-based manager. -/
def isInstalled1 (st : State1) (x : String) : Bool :=
  jsMapHas st.installed x

/-- getExtension of the identify-based manager. -/
def getExtension1 (st : State1) (x : String) : Option Installed1 :=
  jsMapGet st.installed x

/-- updateInstalledPeers of part_001: when the extension is installed and
the peer is not yet known, append it to the installed peer list. -/
def updateInstalledPeers (st : State1) (x p : String) : State1 :=
  match jsMapGet st.installed x with
  | none => st
  | some inst =>
    if inst.peerIds.contains p then st
    else
      let inst2 : Installed1 := { inst with peerIds := inst.peerIds ++ [p] }
      { st with installed := jsMapSet st.installed x inst2 }

/-- handleExtensionDiscovery of part_001 (with the awaited manifest fetch
made explicit: fetched is the outcome of fetchManifest, an error models a
timeout, stream failure or malformed response). When an offer for the
extension exists: append the peer when new (also refreshing the
timestamp), then update installed peers. When the extension is installed:
only update installed peers. Otherwise store a new one-peer offer under
the extension id when the fetch succeeded and the manifest validates. -/
def handleExtensionDiscovery (st : State1) (peerId extId : String)
    (fetched : Except Unit RawManifest) (now : Nat) : State1 :=
  match jsMapGet st.offers extId with
  | some offer =>
    let offer2 : Offer1 :=
      { manifest := offer.manifest, timestamp := now,
        peerIds := offer.peerIds ++ [peerId] }
    let st1 :=
      if offer.peerIds.contains peerId then st
      else { st with offers := jsMapSet st.offers extId offer2 }
    updateInstalledPeers st1 extId peerId
  | none =>
    if isInstalled1 st extId then updateInstalledPeers st extId peerId
    else
      match fetched with
      | Except.error _ => st
      | Except.ok m =>
        if isValidManifest (some m) then
          let offer2 : Offer1 := { manifest := m, timestamp := now, peerIds := [peerId] }
          { st with offers := jsMapSet st.offers extId offer2 }
        else st

/-- installExtension of part_001: move the offer into installed, copying
its whole peer list, and delete the offer. -/
def installExtension1 (st : State1) (x : String) (now : Nat) : Bool × State1 :=
  match jsMapGet st.offers x with
  | none => (false, st)
  | some offer =>
    if isInstalled1 st x then (false, st)
    else
      (true,
       { offers := jsMapDelete st.offers x,
         installed := jsMapSet st.installed x
           { manifest := offer.manifest, installDate := now, enabled := true,
             peerIds := offer.peerIds, lastSuccessfulPeerId := none } })

/-- uninstallExtension of part_001: delete the installed record; offers
are not touched. -/
def uninstallExtension1 (st : State1) (x : String) : Bool × State1 :=
  if !(isInstalled1 st x) then (false, st)
  else (true, { offers := st.offers, installed := jsMapDelete st.installed x })

/-- getExtensionPeers of part_001: when a last successful peer is recorded
(a truthy, hence non-empty, string) and still present in the peer list, it
comes first, followed by the other peers in stored order; otherwise the
stored peer list as is. -/
def getExtensionPeers (st : State1) (x : String) : List String :=
  match jsMapGet st.installed x with
  | none => []
  | some ext =>
    match ext.lastSuccessfulPeerId with
    | none => ext.peerIds
    | some l =>
      if (l != "") && ext.peerIds.contains l then
        l :: ext.peerIds.filter (fun p => p != l)
      else ext.peerIds

/-- markPeerSuccess of part_001: record the peer as last successful.
The stored peer list is not modified. -/
def markPeerSuccess (st : State1) (x p : String) : State1 :=
  match jsMapGet st.installed x with
  | none => st
  | some ext =>
    let ext2 : Installed1 := { ext with lastSuccessfulPeerId := some p }
    { st with installed := jsMapSet st.installed x ext2 }

/-- The installed half of removePeer of part_001: filter the peer out of
the installed record, clearing lastSuccessfulPeerId when it names that
peer. -/
def removePeerInstalled (installed : List (String × Installed1)) (x p : String) :
    List (String × Installed1) :=
  match jsMapGet installed x with
  | none => installed
  | some ext =>
    let ext2 : Installed1 :=
      { ext with peerIds := ext.peerIds.filter (fun q => q != p),
                 lastSuccessfulPeerId :=
                   if ext.lastSuccessfulPeerId == some p then none
                   else ext.lastSuccessfulPeerId }
    jsMapSet installed x ext2

/-- The offers half of removePeer: filter the peer out of a matching
offer, deleting the offer when its peer list becomes empty. The installed
half above never touches offers, so removePeer is the product of the two
halves. -/
def removePeerOffers (offers : List (String × Offer1)) (x p : String) :
    List (String × Offer1) :=
  match jsMapGet offers x with
  | none => offers
  | some offer =>
    if (offer.peerIds.filter (fun q => q != p)).isEmpty then
      jsMapDelete offers x
    else
      let offer2 : Offer1 := { offer with peerIds := offer.peerIds.filter (fun q => q != p) }
      jsMapSet offers x offer2

/-- removePeer itself: both halves applied to their components. -/
def removePeer (st : State1) (x p : String) : State1 :=
  { offers := removePeerOffers st.offers x p,
    installed := removePeerInstalled st.installed x p }

/-- setExtensionEnabled of part_001. -/
def setExtensionEnabled1 (st : State1) (x : String) (b : Bool) : Bool × State1 :=
  match jsMapGet st.installed x with
  | none => (false, st)
  | some ext =>
    (true, { st with installed := jsMapSet st.installed x ({ ext with enabled := b }) })

/-- dismissOffer of part_001. -/
def dismissOffer1 (st : State1) (x : String) : State1 :=
  { st with offers := jsMapDelete st.offers x }

/-- Reachable states of the identify-based ExtensionManager: empty offers
at construction (installed loaded from storage), then any sequence of the
public mutations. -/
inductive Reachable1 : State1 → Prop where
  | init (installed : List (String × Installed1)) :
      Reachable1 { offers := [], installed := installed }
  | discovery (st : State1) (peerId extId : String) (fetched : Except Unit RawManifest) (now : Nat) :
      Reachable1 st → Reachable1 (handleExtensionDiscovery st peerId extId fetched now)
  | install (st : State1) (x : String) (now : Nat) :
      Reachable1 st → Reachable1 (installExtension1 st x now).2
  | uninstall (st : State1) (x : String) :
      Reachable1 st → Reachable1 (uninstallExtension1 st x).2
  | mark (st : State1) (x p : String) :
      Reachable1 st → Reachable1 (markPeerSuccess st x p)
  | remove (st : State1) (x p : String) :
      Reachable1 st → Reachable1 (removePeer st x p)
  | setEnabled (st : State1) (x : String) (b : Bool) :
      Reachable1 st → Reachable1 (setExtensionEnabled1 st x b).2
  | dismiss (st : State1) (x : String) :
      Reachable1 st → Reachable1 (dismissOffer1 st x)

/-- Outcome of ExtensionProtocol.executeCommand (direct-stream variant):
the two fail-fast throws, a successful per-peer response, or the
aggregate all-peers-failed throw carrying the per-peer reasons. -/
inductive ExecResult where
  | notInstalled (message : String)
  | noPeers (message : String)
  | success (data : Option String)
  | allFailed (message : String) (errors : List String)

/-- The message of the aggregate error thrown when every peer failed. -/
def aggregateMessage (extensionId : String) (errors : List String) : String :=
  "All peers failed for extension " ++ extensionId ++ ":\n" ++ String.intercalate "\n" errors

/-- The peer loop of executeCommand. attempt abstracts executeOnPeer for
the fixed protocol, command and arguments: it either returns the decoded
response data or throws a per-peer failure reason (dial error, timeout,
requestId mismatch, decode failure, or the error field of the response).
Besides the result, the attempted peers are returned in order, and the
state is updated through markPeerSuccess on the first success. -/
def tryPeers (st : State1) (extensionId : String)
    (attempt : String → Except String (Option String)) :
    List String → List String → List String → ExecResult × List String × State1
  | [], errors, tried =>
    (ExecResult.allFailed (aggregateMessage extensionId errors) errors, tried, st)
  | p :: rest, errors, tried =>
    match attempt p with
    | Except.ok d => (ExecResult.success d, tried ++ [p], markPeerSuccess st extensionId p)
    | Except.error e =>
      tryPeers st extensionId attempt rest
        (errors ++ [sliceLast8 p ++ ": " ++ e]) (tried ++ [p])

/-- executeCommand of the direct-stream ExtensionProtocol: throw when the
extension is not installed, throw when it has no peers, otherwise try the
ordered candidate peers in sequence. The middle component of the result
lists the peers actually attempted (empty on the two fail-fast paths: no
stream is opened). -/
def executeCommand (st : State1) (extensionId : String) (_command : String)
    (_args : List String) (attempt : String → Except String (Option String)) :
    ExecResult × List String × State1 :=
  match getExtension1 st extensionId with
  | none =>
    (ExecResult.notInstalled ("Extension " ++ extensionId ++ " is not installed"), [], st)
  | some _ =>
    if (getExtensionPeers st extensionId).isEmpty then
      (ExecResult.noPeers ("No peers available for extension " ++ extensionId), [], st)
    else
      tryPeers st extensionId attempt (getExtensionPeers st extensionId) [] []

/-- Empty state of the identify-based manager. -/
def emptyState1 : State1 := { offers := [], installed := [] }

/-- Eleven distinct extension ids used to overflow the uncapped offer Map
of the identify-based manager. -/
def elevenIds : List String :=
  ["e01", "e02", "e03", "e04", "e05", "e06", "e07", "e08", "e09", "e10", "e11"]

/-- Eleven successful discoveries of distinct extensions, from one peer. -/
def elevenOffersState : State1 :=
  elevenIds.foldl
    (fun st s => handleExtensionDiscovery st "peer1" s (Except.ok (mkManifest s)) 0)
    emptyState1

/-- A pubsub-manager state already holding MAX_OFFERS offers, for the
eviction witness. -/
def tenOffersState0 : State0 :=
  { offers :=
      [("a1", { manifest := mkManifest "a1", timestamp := 1, publisherPeerId := "p" }),
       ("a2", { manifest := mkManifest "a2", timestamp := 2, publisherPeerId := "p" }),
       ("a3", { manifest := mkManifest "a3", timestamp := 3, publisherPeerId := "p" }),
       ("a4", { manifest := mkManifest "a4", timestamp := 4, publisherPeerId := "p" }),
       ("a5", { manifest := mkManifest "a5", timestamp := 5, publisherPeerId := "p" }),
       ("a6", { manifest := mkManifest "a6", timestamp := 6, publisherPeerId := "p" }),
       ("a7", { manifest := mkManifest "a7", timestamp := 7, publisherPeerId := "p" }),
       ("a8", { manifest := mkManifest "a8", timestamp := 8, publisherPeerId := "p" }),
       ("a9", { manifest := mkManifest "a9", timestamp := 9, publisherPeerId := "p" }),
       ("b1", { manifest := mkManifest "b1", timestamp := 10, publisherPeerId := "p" })],
    installed := [] }

/-- The manifest of the extension used in the repeated-sighting scenario. -/
def c2m : RawManifest := mkManifest "ex"

/-- State after a first discovery of extension ex from peer pA at time 5. -/
def c2st0 : State1 :=
  handleExtensionDiscovery emptyState1 "pA" "ex" (Except.ok c2m) 5

/-- An installed extension with two peers and no success marker. -/
def wExt : Installed1 :=
  { manifest := mkManifest "wx", installDate := 0, enabled := true,
    peerIds := ["peerOne", "peerTwo"], lastSuccessfulPeerId := none }

/-- A state with wx installed (two peers), for execution witnesses. -/
def wState : State1 := { offers := [], installed := [("wx", wExt)] }

/-- An installed extension with no peers at all. -/
def wExtNoPeers : Installed1 :=
  { manifest := mkManifest "wz", installDate := 0, enabled := true,
    peerIds := [], lastSuccessfulPeerId := none }

/-- A state with wz installed but zero peers. -/
def wStateNoPeers : State1 := { offers := [], installed := [("wz", wExtNoPeers)] }

/-- An installed extension whose recorded last successful peer is peerTwo. -/
def wExtMarked : Installed1 :=
  { manifest := mkManifest "wm", installDate := 0, enabled := true,
    peerIds := ["peerOne", "peerTwo", "peerSix"], lastSuccessfulPeerId := some "peerTwo" }

/-- A state with wm installed and peerTwo marked last successful. -/
def wStateMarked : State1 := { offers := [], installed := [("wm", wExtMarked)] }

/-- An attempt oracle that fails on every peer. -/
def failAllAttempt : String → Except String (Option String) :=
  fun p => Except.error ("boom-" ++ p)

/-- A state with an offer for wy (two peers) and nothing installed. -/
def wOfferState : State1 :=
  { offers :=
      [("wy", { manifest := mkManifest "wy", timestamp := 3, peerIds := ["pX", "pY"] })],
    installed := [] }

/-- The installed record used in the removePeer witness. -/
def wRemInst : Installed1 :=
  { manifest := mkManifest "wr", installDate := 0, enabled := true,
    peerIds := ["pA", "pB"], lastSuccessfulPeerId := some "pA" }

/-- The offer used in the removePeer witness. -/
def wRemOffer : Offer1 :=
  { manifest := mkManifest "wr", timestamp := 1, peerIds := ["pA"] }

/-- A state with wr both installed (peers pA and pB, pA marked last
successful) and offered (single peer pA). -/
def wRemState : State1 :=
  { offers := [("wr", wRemOffer)], installed := [("wr", wRemInst)] }

/-! Lemmas about the Map embedding. -/

theorem jsMapGet_set_self {V : Type} (m : List (String × V)) (k : String) (v : V) :
    jsMapGet (jsMapSet m k v) k = some v := by
  induction m with
  | nil => simp [jsMapSet, jsMapGet]
  | cons e rest ih =>
    by_cases h : e.1 = k
    · have hb : (e.1 == k) = true := by simp [h]
      simp [jsMapSet, hb, jsMapGet]
    · have hb : (e.1 == k) = false := by simp [h]
      simp [jsMapSet, hb, jsMapGet, ih]

theorem jsMapGet_delete_self {V : Type} (m : List (String × V)) (k : String) :
    jsMapGet (jsMapDelete m k) k = none := by
  induction m with
  | nil => simp [jsMapDelete, jsMapGet]
  | cons e rest ih =>
    by_cases h : e.1 = k
    · have hb : (e.1 == k) = true := by simp [h]
      simpa [jsMapDelete, List.filter_cons, hb] using ih
    · have hb : (e.1 == k) = false := by simp [h]
      have ih2 : jsMapGet (List.filter (fun x => !(x.1 == k)) rest) k = none := ih
      simp [jsMapDelete, List.filter_cons, hb, jsMapGet, ih2]

theorem length_jsMapSet_le {V : Type} (m : List (String × V)) (k : String) (v : V) :
    (jsMapSet m k v).length ≤ m.length + 1 := by
  induction m with
  | nil => simp [jsMapSet]
  | cons e rest ih =>
    by_cases h : e.1 = k
    · have hb : (e.1 == k) = true := by simp [h]
      simp [jsMapSet, hb]
    · have hb : (e.1 == k) = false := by simp [h]
      simp only [jsMapSet, hb, Bool.false_eq_true, if_false, List.length_cons]
      omega

theorem length_jsMapDelete_le {V : Type} (m : List (String × V)) (k : String) :
    (jsMapDelete m k).length ≤ m.length :=
  List.length_filter_le _ m

theorem length_jsMapDelete_lt {V : Type} (m : List (String × V)) (e : String × V)
    (he : e ∈ m) : (jsMapDelete m e.1).length < m.length := by
  induction m with
  | nil => cases he
  | cons a rest ih =>
    by_cases h : a.1 = e.1
    · have hb : (a.1 == e.1) = true := by simp [h]
      have hf := List.length_filter_le (fun x => !(x.1 == e.1)) rest
      simp only [jsMapDelete, List.filter_cons, hb, Bool.not_true, Bool.false_eq_true, if_false,
        List.length_cons]
      omega
    · have hb : (a.1 == e.1) = false := by simp [h]
      have hne : e ∈ rest := by
        rcases List.mem_cons.mp he with rfl | hmem
        · exact absurd rfl h
        · exact hmem
      have ih2 : (List.filter (fun x => !(x.1 == e.1)) rest).length < rest.length := ih hne
      simp [jsMapDelete, List.filter_cons, hb]
      omega

/-! Lemmas about trim, split and indexOf. -/

theorem head?_dropWhile_not (f : Char → Bool) :
    ∀ (l : List Char) (c : Char), (l.dropWhile f).head? = some c → f c = false := by
  intro l
  induction l with
  | nil => intro c h; simp [List.dropWhile] at h
  | cons a as ih =>
    intro c h
    by_cases hf : f a = true
    · rw [List.dropWhile_cons, if_pos hf] at h
      exact ih c h
    · rw [List.dropWhile_cons, if_neg hf] at h
      simp only [List.head?_cons, Option.some.injEq] at h
      subst h
      cases hfa : f a with
      | false => rfl
      | true => exact absurd hfa hf

theorem dropWhile_eq_self_of_head? (f : Char → Bool) (l : List Char)
    (h : ∀ c, l.head? = some c → f c = false) : l.dropWhile f = l := by
  cases l with
  | nil => rfl
  | cons a as =>
    have ha := h a rfl
    rw [List.dropWhile_cons, if_neg (by simp [ha])]

theorem getLast?_dropWhile (f : Char → Bool) :
    ∀ l : List Char, l.dropWhile f ≠ [] → (l.dropWhile f).getLast? = l.getLast? := by
  intro l
  induction l with
  | nil => intro h; simp [List.dropWhile] at h
  | cons a as ih =>
    intro h
    by_cases hf : f a = true
    · rw [List.dropWhile_cons, if_pos hf] at h ⊢
      have has : as ≠ [] := by
        intro hnil
        rw [hnil] at h
        simp [List.dropWhile] at h
      rw [ih h]
      cases as with
      | nil => exact absurd rfl has
      | cons b bs => rw [List.getLast?_cons_cons]
    · rw [List.dropWhile_cons, if_neg hf]

theorem jsTrim_idem (s : String) : jsTrim (jsTrim s) = jsTrim s := by
  have hstep1 :
      ((s.data.dropWhile jsIsWs).reverse.dropWhile jsIsWs).reverse.dropWhile jsIsWs =
        ((s.data.dropWhile jsIsWs).reverse.dropWhile jsIsWs).reverse := by
    apply dropWhile_eq_self_of_head?
    intro c hc
    rw [List.head?_reverse] at hc
    have hb : (s.data.dropWhile jsIsWs).reverse.dropWhile jsIsWs ≠ [] := by
      intro hnil
      rw [hnil] at hc
      simp at hc
    rw [getLast?_dropWhile jsIsWs _ hb, List.getLast?_reverse] at hc
    exact head?_dropWhile_not jsIsWs s.data c hc
  have hstep2 :
      ((s.data.dropWhile jsIsWs).reverse.dropWhile jsIsWs).reverse.reverse.dropWhile jsIsWs =
        (s.data.dropWhile jsIsWs).reverse.dropWhile jsIsWs := by
    rw [List.reverse_reverse]
    apply dropWhile_eq_self_of_head?
    intro c hc
    exact head?_dropWhile_not jsIsWs (s.data.dropWhile jsIsWs).reverse c hc
  show String.mk
      (((((s.data.dropWhile jsIsWs).reverse.dropWhile jsIsWs).reverse.dropWhile
          jsIsWs).reverse.dropWhile jsIsWs).reverse) =
    String.mk (((s.data.dropWhile jsIsWs).reverse.dropWhile jsIsWs).reverse)
  rw [hstep1, hstep2]

theorem splitWsStep_ne_nil (c : Char) (acc : List (List Char)) : splitWsStep c acc ≠ [] := by
  unfold splitWsStep
  by_cases hw : jsIsWs c = true
  · rw [if_pos hw]
    cases acc with
    | nil => simp
    | cons p t =>
      cases p with
      | nil => simp
      | cons x xs => simp
  · rw [if_neg hw]
    cases acc with
    | nil => simp
    | cons p t => simp

theorem splitWs_ne_nil (l : List Char) : splitWs l ≠ [] := by
  cases l with
  | nil => simp [splitWs]
  | cons c cs =>
    show splitWsStep c (List.foldr splitWsStep [[]] cs) ≠ []
    exact splitWsStep_ne_nil c _

theorem jsIndexOf_eq_none (c : Char) :
    ∀ l : List Char, jsIndexOf l c = none → l.contains c = false := by
  intro l
  induction l with
  | nil => intro _; rfl
  | cons a as ih =>
    intro h
    unfold jsIndexOf at h
    by_cases ha : (a == c) = true
    · rw [if_pos ha] at h
      cases h
    · rw [if_neg ha] at h
      have h2 : jsIndexOf as c = none := by
        cases hx : jsIndexOf as c with
        | none => rfl
        | some i => rw [hx] at h; simp at h
      have hrec := ih h2
      have hac : ¬(a = c) := by
        intro hh
        exact ha (by simp [hh])
      have hca : ¬(c = a) := fun hh => hac hh.symm
      simp [List.contains_cons, hca]
      simpa using hrec

theorem jsIndexOf_eq_some (c : Char) :
    ∀ (l : List Char) (i : Nat), jsIndexOf l c = some i →
      l.contains c = true ∧
      l.take i = l.takeWhile (fun a => a != c) ∧
      l.drop (i + 1) = (l.dropWhile (fun a => a != c)).drop 1 := by
  intro l
  induction l with
  | nil => intro i h; cases h
  | cons a as ih =>
    intro i h
    unfold jsIndexOf at h
    by_cases ha : (a == c) = true
    · rw [if_pos ha] at h
      cases h
      have hac : a = c := eq_of_beq ha
      have hne : (a != c) = false := by simp [hac]
      refine ⟨by simp [List.contains_cons, hac], ?_, ?_⟩
      · simp [List.takeWhile_cons, hne]
      · simp [List.dropWhile_cons, hne]
    · rw [if_neg ha] at h
      cases hx : jsIndexOf as c with
      | none => rw [hx] at h; cases h
      | some j =>
        rw [hx] at h
        simp only [Option.map_some'] at h
        cases h
        obtain ⟨h1, h2, h3⟩ := ih j hx
        have hanec : (a != c) = true := by
          simp only [bne_iff_ne, ne_eq]
          intro hh
          exact ha (by simp [hh])
        have h1m : c ∈ as := by simpa using h1
        refine ⟨by simp [List.contains_cons]; exact Or.inr h1m, ?_, ?_⟩
        · simp [List.take_succ_cons, List.takeWhile_cons, hanec, h2]
        · simp [List.drop_succ_cons, List.dropWhile_cons, hanec, h3]

/-- C7: for every input whose trimmed form starts with a slash, parseCommand
splits the remainder on whitespace runs, splits the first token at its first
dash into extensionId and command (command "default" when no dash is
present), and returns the remaining tokens as positional arguments; in
particular parsing "/sheet-write hackathon A1=25" yields extensionId
"sheet", command "write" and arguments ["hackathon", "A1=25"]. -/
theorem c7_parse_command :
    parseCommand "/sheet-write hackathon A1=25" =
      some { extensionId := "sheet", command := "write",
             args := ["hackathon", "A1=25"], raw := "/sheet-write hackathon A1=25" } ∧
    ∀ (input : String) (rest : List Char), (jsTrim input).data = '/' :: rest →
      ∃ headTok argToks, splitWs rest = headTok :: argToks ∧
        parseCommand input =
          some { extensionId :=
                   String.mk (if headTok.contains '-' then
                     headTok.takeWhile (fun a => a != '-') else headTok),
                 command :=
                   if headTok.contains '-' then
                     String.mk ((headTok.dropWhile (fun a => a != '-')).drop 1)
                   else "default",
                 args := argToks.map String.mk, raw := input } := by
  constructor
  · rfl
  · intro input rest h
    obtain ⟨headTok, argToks, hsp⟩ : ∃ ht at', splitWs rest = ht :: at' := by
      cases hq : splitWs rest with
      | nil => exact absurd hq (splitWs_ne_nil rest)
      | cons hh tt => exact ⟨hh, tt, rfl⟩
    refine ⟨headTok, argToks, hsp, ?_⟩
    have hcmd : isCommand (jsTrim input) = true := by
      unfold isCommand
      rw [jsTrim_idem, h]
      simp
    unfold parseCommand
    rw [hcmd]
    simp only [Bool.not_true, Bool.false_eq_true, if_false]
    rw [h]
    simp only [List.drop_succ_cons, List.drop_zero]
    rw [hsp]
    cases hidx : jsIndexOf headTok '-' with
    | none =>
      have hcon := jsIndexOf_eq_none '-' headTok hidx
      have hmem : ¬('-' ∈ headTok) := by simpa using hcon
      simp [hidx, hmem]
    | some i =>
      obtain ⟨hcon, htake, hdrop⟩ := jsIndexOf_eq_some '-' headTok i hidx
      have hmem : '-' ∈ headTok := by simpa using hcon
      simp [hidx, hmem, htake, hdrop]

/-- Witness for C7: the general characterization applied to the concrete
input "/sheet list" (no dash in the head token). -/
theorem c7_witness :
    ∃ headTok argToks, splitWs ("sheet list".data) = headTok :: argToks ∧
      parseCommand "/sheet list" =
        some { extensionId :=
                 String.mk (if headTok.contains '-' then
                   headTok.takeWhile (fun a => a != '-') else headTok),
               command :=
                 if headTok.contains '-' then
                   String.mk ((headTok.dropWhile (fun a => a != '-')).drop 1)
                 else "default",
               args := argToks.map String.mk, raw := "/sheet list" } :=
  c7_parse_command.2 "/sheet list" ("sheet list".data) (by rfl)

/-- C10: parseCommand returns none exactly when the trimmed input does not
start with a slash (isCommand); in particular the bare slash, and a slash
followed directly by a dash and a letter, parse to structured results with
an empty extensionId, and the separate predicate isValidCommand is what
rejects them. -/
theorem c10_parse_none_iff :
    (∀ input : String, (parseCommand input).isNone = !(isCommand input)) ∧
    parseCommand "/" = some { extensionId := "", command := "default", args := [], raw := "/" } ∧
    parseCommand "/-x" = some { extensionId := "", command := "x", args := [], raw := "/-x" } ∧
    isValidCommand (parseCommand "/") = false ∧
    isValidCommand (parseCommand "/-x") = false := by
  refine ⟨?_, rfl, rfl, rfl, rfl⟩
  intro input
  by_cases h : isCommand input = true
  · obtain ⟨c, tl, hd, hc⟩ : ∃ c tl, (jsTrim input).data = c :: tl ∧ (c == '/') = true := by
      unfold isCommand at h
      cases hdd : (jsTrim input).data with
      | nil => rw [hdd] at h; cases h
      | cons c tl => rw [hdd] at h; exact ⟨c, tl, rfl, h⟩
    have hc2 : c = '/' := eq_of_beq hc
    subst hc2
    have hcmd2 : isCommand (jsTrim input) = true := by
      unfold isCommand
      rw [jsTrim_idem, hd]
      simp
    unfold parseCommand
    rw [hcmd2]
    simp only [Bool.not_true, Bool.false_eq_true, if_false]
    rw [hd]
    simp only [List.drop_succ_cons, List.drop_zero]
    cases hq : splitWs tl with
    | nil => exact absurd hq (splitWs_ne_nil tl)
    | cons ht tt =>
      cases hidx : jsIndexOf ht '-' with
      | none => simp [h, hidx]
      | some i => simp [h, hidx]
  · have hb : isCommand input = false := by
      cases hx : isCommand input with
      | false => rfl
      | true => exact absurd hx h
    have hcmd2 : isCommand (jsTrim input) = false := by
      unfold isCommand at hb ⊢
      rw [jsTrim_idem]
      exact hb
    unfold parseCommand
    rw [hcmd2]
    simp [hb]

/-! Registry lemmas and claims. -/

theorem updateInstalledPeers_offers (st : State1) (x p : String) :
    (updateInstalledPeers st x p).offers = st.offers := by
  unfold updateInstalledPeers
  cases hgi : jsMapGet st.installed x with
  | none => rfl
  | some inst =>
    by_cases h : p ∈ inst.peerIds
    · simp [h]
    · simp [h]

/-- C2 (amended): when an offer exists for the extension, a sighting from a
peer already in its peer set leaves the offers Map unchanged (in
particular the timestamp is not refreshed), while a sighting from a new
peer appends the peer and refreshes the timestamp. -/
theorem c2_amended_sighting_update :
    ∀ (st : State1) (peer extId : String) (fetched : Except Unit RawManifest)
      (now : Nat) (offer : Offer1),
      jsMapGet st.offers extId = some offer →
      ((offer.peerIds.contains peer = true →
          (handleExtensionDiscovery st peer extId fetched now).offers = st.offers) ∧
       (offer.peerIds.contains peer = false →
          (handleExtensionDiscovery st peer extId fetched now).offers =
            jsMapSet st.offers extId
              { manifest := offer.manifest, timestamp := now,
                peerIds := offer.peerIds ++ [peer] })) := by
  intro st peer extId fetched now offer hget
  unfold handleExtensionDiscovery
  rw [hget]
  constructor
  · intro hc
    simp only [updateInstalledPeers_offers, hc, if_true]
  · intro hc
    simp only [updateInstalledPeers_offers, hc, Bool.false_eq_true, if_false]

/-- C2 (counterexample): after a first discovery of extension ex from peer
pA at time 5, a second sighting of ex from the same peer pA at time 99
leaves the stored timestamp at 5 instead of refreshing it to 99. -/
theorem c2_counterexample :
    jsMapGet ((handleExtensionDiscovery c2st0 "pA" "ex" (Except.ok c2m) 99).offers) "ex" =
      some { manifest := c2m, timestamp := 5, peerIds := ["pA"] } ∧
    (5 : Nat) ≠ 99 := by
  exact ⟨rfl, by decide⟩

/-- Witness for C2: both branches of the amended claim at a concrete state. -/
theorem c2_witness :
    ((handleExtensionDiscovery c2st0 "pA" "ex" (Except.ok c2m) 99).offers = c2st0.offers) ∧
    ((handleExtensionDiscovery c2st0 "pB" "ex" (Except.ok c2m) 99).offers =
      jsMapSet c2st0.offers "ex"
        { manifest := c2m, timestamp := 99, peerIds := ["pA"] ++ ["pB"] }) := by
  constructor
  · exact (c2_amended_sighting_update c2st0 "pA" "ex" (Except.ok c2m) 99
      { manifest := c2m, timestamp := 5, peerIds := ["pA"] } (by rfl)).1 (by rfl)
  · exact (c2_amended_sighting_update c2st0 "pB" "ex" (Except.ok c2m) 99
      { manifest := c2m, timestamp := 5, peerIds := ["pA"] } (by rfl)).2 (by rfl)

/-- C3 (counterexample): the validator accepts a manifest whose id is the
empty string (the claim said it is rejected as invalid). -/
theorem c3_counterexample :
    isValidManifest (some (mkManifest "")) = true ∧
    (mkManifest "").id = some (JsVal.vstr "") :=
  ⟨rfl, rfl⟩

/-- C3 (amended): validation requires id to be a string (every accepted
manifest has a string id) but never inspects its contents, so the
empty-string id is accepted and such an offer is in fact stored. -/
theorem c3_amended_validation :
    (∀ m : RawManifest, isValidManifest (some m) = true → isStrVal m.id = true) ∧
    (∀ (m : RawManifest) (s t : String),
        isValidManifest (some { m with id := some (JsVal.vstr s) }) =
        isValidManifest (some { m with id := some (JsVal.vstr t) })) ∧
    (handleExtensionOffer { offers := [], installed := [] } (some (mkManifest "")) "p1" 7).offers =
      [("", { manifest := mkManifest "", timestamp := 7, publisherPeerId := "p1" })] := by
  refine ⟨?_, ?_, rfl⟩
  · intro m h
    unfold isValidManifest at h
    simp only [Bool.and_eq_true] at h
    exact h.1.1.1.1.1.1
  · intro m s t
    simp [isValidManifest, isStrVal]

/-- Witness for C3: the first conjunct of the amended claim at a concrete
valid manifest. -/
theorem c3_witness : isStrVal (mkManifest "w3").id = true :=
  c3_amended_validation.1 (mkManifest "w3") (by rfl)

/-- C6: the candidate list of getExtensionPeers places the recorded last
successful peer first when it is still present in the stored peer list,
followed by the remaining peers in stored insertion order; otherwise it is
the stored peer list itself; and markPeerSuccess records the peer without
changing the stored peer list (or the offers). A recorded peer id is a
truthy string, hence non-empty. -/
theorem c6_peer_ordering :
    ∀ (st : State1) (x p : String) (ext : Installed1),
      jsMapGet st.installed x = some ext →
      ((∀ l, ext.lastSuccessfulPeerId = some l → (l != "") = true →
          ext.peerIds.contains l = true →
          getExtensionPeers st x = l :: ext.peerIds.filter (fun q => q != l)) ∧
       (ext.lastSuccessfulPeerId = none → getExtensionPeers st x = ext.peerIds) ∧
       (∀ l, ext.lastSuccessfulPeerId = some l →
          ((l != "") = false ∨ ext.peerIds.contains l = false) →
          getExtensionPeers st x = ext.peerIds) ∧
       jsMapGet (markPeerSuccess st x p).installed x =
         some { ext with lastSuccessfulPeerId := some p } ∧
       (markPeerSuccess st x p).offers = st.offers) := by
  intro st x p ext hget
  have heq : getExtensionPeers st x =
      (match ext.lastSuccessfulPeerId with
       | none => ext.peerIds
       | some l =>
         if (l != "") && ext.peerIds.contains l then
           l :: ext.peerIds.filter (fun q => q != l)
         else ext.peerIds) := by
    unfold getExtensionPeers
    rw [hget]
  refine ⟨?_, ?_, ?_, ?_, ?_⟩
  · intro l hl hne hcon
    rw [heq, hl]
    show (if (l != "") && ext.peerIds.contains l then
        l :: ext.peerIds.filter (fun q => q != l) else ext.peerIds) =
      l :: ext.peerIds.filter (fun q => q != l)
    rw [if_pos (by rw [hne, hcon]; rfl)]
  · intro hl
    rw [heq, hl]
  · intro l hl hor
    rw [heq, hl]
    show (if (l != "") && ext.peerIds.contains l then
        l :: ext.peerIds.filter (fun q => q != l) else ext.peerIds) = ext.peerIds
    rcases hor with h1 | h1
    · rw [if_neg (by rw [h1]; simp)]
    · rw [if_neg (by rw [h1]; simp)]
  · unfold markPeerSuccess
    rw [hget]
    exact jsMapGet_set_self st.installed x _
  · unfold markPeerSuccess
    rw [hget]

/-- Witness for C6: ordering and marking at a concrete installed state. -/
theorem c6_witness :
    getExtensionPeers wStateMarked "wm" =
      "peerTwo" :: wExtMarked.peerIds.filter (fun q => q != "peerTwo") ∧
    jsMapGet (markPeerSuccess wStateMarked "wm" "peerSix").installed "wm" =
      some { wExtMarked with lastSuccessfulPeerId := some "peerSix" } := by
  have h := c6_peer_ordering wStateMarked "wm" "peerSix" wExtMarked (by rfl)
  exact ⟨h.1 "peerTwo" (by rfl) (by rfl) (by rfl), h.2.2.2.1⟩

/-- C8: when an offer for x exists and x is not installed, install succeeds,
x is then installed with the full peer set of the offer, and the offer is
gone; when x is installed, uninstall succeeds, x is no longer installed,
and the offers Map is untouched (no offer is resurrected). -/
theorem c8_install_uninstall :
    ∀ (st : State1) (x : String) (now : Nat),
      (∀ offer, jsMapGet st.offers x = some offer → isInstalled1 st x = false →
        (installExtension1 st x now).1 = true ∧
        isInstalled1 (installExtension1 st x now).2 x = true ∧
        jsMapGet (installExtension1 st x now).2.offers x = none ∧
        (jsMapGet (installExtension1 st x now).2.installed x).map (fun e => e.peerIds) =
          some offer.peerIds) ∧
      (isInstalled1 st x = true →
        (uninstallExtension1 st x).1 = true ∧
        isInstalled1 (uninstallExtension1 st x).2 x = false ∧
        (uninstallExtension1 st x).2.offers = st.offers) := by
  intro st x now
  constructor
  · intro offer hoff hni
    unfold installExtension1
    rw [hoff, hni]
    simp only [Bool.false_eq_true, if_false]
    refine ⟨by trivial, ?_, ?_, ?_⟩
    · unfold isInstalled1 jsMapHas
      rw [jsMapGet_set_self]
      rfl
    · exact jsMapGet_delete_self st.offers x
    · rw [jsMapGet_set_self]
      rfl
  · intro hi
    unfold uninstallExtension1
    rw [hi]
    simp only [Bool.not_true, Bool.false_eq_true, if_false]
    refine ⟨by trivial, ?_, by trivial⟩
    unfold isInstalled1 jsMapHas
    rw [jsMapGet_delete_self]
    rfl

/-- Witness for C8: install from a concrete offer and uninstall of a
concrete installation. -/
theorem c8_witness :
    (installExtension1 wOfferState "wy" 42).1 = true ∧
    isInstalled1 (installExtension1 wOfferState "wy" 42).2 "wy" = true ∧
    jsMapGet (installExtension1 wOfferState "wy" 42).2.offers "wy" = none ∧
    (jsMapGet (installExtension1 wOfferState "wy" 42).2.installed "wy").map (fun e => e.peerIds) =
      some (Offer1.peerIds { manifest := mkManifest "wy", timestamp := 3, peerIds := ["pX", "pY"] }) ∧
    (uninstallExtension1 wState "wx").1 = true ∧
    isInstalled1 (uninstallExtension1 wState "wx").2 "wx" = false ∧
    (uninstallExtension1 wState "wx").2.offers = wState.offers := by
  obtain ⟨h1, h2, h3, h4⟩ := (c8_install_uninstall wOfferState "wy" 42).1
    { manifest := mkManifest "wy", timestamp := 3, peerIds := ["pX", "pY"] } (by rfl) (by rfl)
  obtain ⟨h5, h6, h7⟩ := (c8_install_uninstall wState "wx" 0).2 (by rfl)
  exact ⟨h1, h2, h3, h4, h5, h6, h7⟩


/-- C9: removePeer filters the peer out of both the installed record and a
matching offer; when the peer was the last peer of the offer, the offer is
deleted; when the peer is the recorded last successful peer of the
installation, that field is cleared. -/
theorem c9_remove_peer :
    ∀ (st : State1) (x p : String),
      (∀ ext, jsMapGet st.installed x = some ext →
        jsMapGet (removePeer st x p).installed x =
          some { ext with
                 peerIds := ext.peerIds.filter (fun q => q != p),
                 lastSuccessfulPeerId :=
                   if ext.lastSuccessfulPeerId == some p then none
                   else ext.lastSuccessfulPeerId }) ∧
      (∀ offer, jsMapGet st.offers x = some offer →
        ((offer.peerIds.filter (fun q => q != p)).isEmpty = true →
          jsMapGet (removePeer st x p).offers x = none) ∧
        ((offer.peerIds.filter (fun q => q != p)).isEmpty = false →
          jsMapGet (removePeer st x p).offers x =
            some { offer with peerIds := offer.peerIds.filter (fun q => q != p) })) := by
  intro st x p
  constructor
  · intro ext hget
    show jsMapGet (removePeerInstalled st.installed x p) x = _
    unfold removePeerInstalled
    rw [hget]
    exact jsMapGet_set_self st.installed x _
  · intro offer hoff
    constructor
    · intro he
      show jsMapGet (removePeerOffers st.offers x p) x = none
      unfold removePeerOffers
      rw [hoff]
      show jsMapGet
          (if (offer.peerIds.filter (fun q => q != p)).isEmpty then jsMapDelete st.offers x
           else jsMapSet st.offers x
             { offer with peerIds := offer.peerIds.filter (fun q => q != p) }) x = none
      rw [if_pos he]
      exact jsMapGet_delete_self st.offers x
    · intro he
      show jsMapGet (removePeerOffers st.offers x p) x = _
      unfold removePeerOffers
      rw [hoff]
      show jsMapGet
          (if (offer.peerIds.filter (fun q => q != p)).isEmpty then jsMapDelete st.offers x
           else jsMapSet st.offers x
             { offer with peerIds := offer.peerIds.filter (fun q => q != p) }) x = _
      rw [if_neg (by rw [he]; exact fun hh => Bool.noConfusion hh)]
      exact jsMapGet_set_self st.offers x _

/-- Witness for C9: removing peer pA from wr clears the success marker,
shrinks the installed peer list, and deletes the offer whose only peer it
was. -/
theorem c9_witness :
    jsMapGet (removePeer wRemState "wr" "pA").installed "wr" =
      some { wRemInst with
             peerIds := wRemInst.peerIds.filter (fun q => q != "pA"),
             lastSuccessfulPeerId :=
               if wRemInst.lastSuccessfulPeerId == some "pA" then none
               else wRemInst.lastSuccessfulPeerId } ∧
    jsMapGet (removePeer wRemState "wr" "pA").offers "wr" = none := by
  have h := c9_remove_peer wRemState "wr" "pA"
  exact ⟨h.1 wRemInst (by rfl), (h.2 wRemOffer (by rfl)).1 (by rfl)⟩

/-! Execution-engine claims. -/

theorem tryPeers_all_fail (st : State1) (extensionId : String)
    (attempt : String → Except String (Option String)) (msg : String → String) :
    ∀ (ps errors tried : List String),
      (∀ p ∈ ps, attempt p = Except.error (msg p)) →
      tryPeers st extensionId attempt ps errors tried =
        (ExecResult.allFailed
           (aggregateMessage extensionId
             (errors ++ ps.map (fun p => sliceLast8 p ++ ": " ++ msg p)))
           (errors ++ ps.map (fun p => sliceLast8 p ++ ": " ++ msg p)),
         tried ++ ps, st) := by
  intro ps
  induction ps with
  | nil =>
    intro errors tried h
    simp [tryPeers]
  | cons p rest ih =>
    intro errors tried h
    have hp := h p (List.mem_cons_self p rest)
    unfold tryPeers
    simp only [hp]
    rw [ih (errors ++ [sliceLast8 p ++ ": " ++ msg p]) (tried ++ [p])
      (fun q hq => h q (List.mem_cons_of_mem p hq))]
    simp [List.append_assoc]

/-- C4: executeCommand fails immediately, attempting no peer (the attempted
list is empty, so no stream is opened), with the not-installed error when
the extension is not installed, and with the distinct no-peers error when
it is installed but its candidate peer list is empty. -/
theorem c4_execute_fails_fast :
    ∀ (st : State1) (extensionId cmd : String) (args : List String)
      (attempt : String → Except String (Option String)),
      (jsMapGet st.installed extensionId = none →
        executeCommand st extensionId cmd args attempt =
          (ExecResult.notInstalled ("Extension " ++ extensionId ++ " is not installed"), [], st)) ∧
      (∀ ext, jsMapGet st.installed extensionId = some ext →
        getExtensionPeers st extensionId = [] →
        executeCommand st extensionId cmd args attempt =
          (ExecResult.noPeers ("No peers available for extension " ++ extensionId), [], st)) ∧
      (∀ m1 m2, ExecResult.notInstalled m1 ≠ ExecResult.noPeers m2) := by
  intro st extensionId cmd args attempt
  refine ⟨?_, ?_, ?_⟩
  · intro h
    unfold executeCommand getExtension1
    rw [h]
  · intro ext h hp
    unfold executeCommand getExtension1
    rw [h]
    show (if (getExtensionPeers st extensionId).isEmpty then
        (ExecResult.noPeers ("No peers available for extension " ++ extensionId),
         ([] : List String), st)
      else tryPeers st extensionId attempt (getExtensionPeers st extensionId) [] []) =
      (ExecResult.noPeers ("No peers available for extension " ++ extensionId),
       ([] : List String), st)
    rw [hp]
    rfl
  · intro m1 m2 h
    exact ExecResult.noConfusion h

/-- Witness for C4: both fail-fast paths at concrete states. -/
theorem c4_witness :
    executeCommand emptyState1 "nope" "c" [] failAllAttempt =
      (ExecResult.notInstalled ("Extension " ++ "nope" ++ " is not installed"), [], emptyState1) ∧
    executeCommand wStateNoPeers "wz" "c" [] failAllAttempt =
      (ExecResult.noPeers ("No peers available for extension " ++ "wz"), [], wStateNoPeers) := by
  constructor
  · exact (c4_execute_fails_fast emptyState1 "nope" "c" [] failAllAttempt).1 (by rfl)
  · exact (c4_execute_fails_fast wStateNoPeers "wz" "c" [] failAllAttempt).2.1
      wExtNoPeers (by rfl) (by rfl)

/-- C5: when every candidate peer attempt fails, executeCommand ends with
the aggregate error whose list of reasons is exactly one formatted entry
per tried peer, in order (and its message is their join); every candidate
was attempted. -/
theorem c5_aggregate_errors :
    ∀ (st : State1) (extensionId cmd : String) (args : List String)
      (attempt : String → Except String (Option String)) (msg : String → String)
      (ext : Installed1),
      jsMapGet st.installed extensionId = some ext →
      getExtensionPeers st extensionId ≠ [] →
      (∀ p ∈ getExtensionPeers st extensionId, attempt p = Except.error (msg p)) →
      executeCommand st extensionId cmd args attempt =
        (ExecResult.allFailed
           (aggregateMessage extensionId
             ((getExtensionPeers st extensionId).map (fun p => sliceLast8 p ++ ": " ++ msg p)))
           ((getExtensionPeers st extensionId).map (fun p => sliceLast8 p ++ ": " ++ msg p)),
         getExtensionPeers st extensionId, st) := by
  intro st extensionId cmd args attempt msg ext hget hne hfail
  unfold executeCommand getExtension1
  rw [hget]
  show (if (getExtensionPeers st extensionId).isEmpty then
      (ExecResult.noPeers ("No peers available for extension " ++ extensionId),
       ([] : List String), st)
    else tryPeers st extensionId attempt (getExtensionPeers st extensionId) [] []) = _
  have hie : (getExtensionPeers st extensionId).isEmpty = false := by
    cases hll : getExtensionPeers st extensionId with
    | nil => exact absurd hll hne
    | cons a l => rfl
  rw [hie]
  simp only [Bool.false_eq_true, if_false]
  have ht := tryPeers_all_fail st extensionId attempt msg
    (getExtensionPeers st extensionId) [] [] hfail
  simpa using ht

/-- Witness for C5: a concrete installed extension with two peers, both of
which fail. -/
theorem c5_witness :
    executeCommand wState "wx" "c" [] failAllAttempt =
      (ExecResult.allFailed
         (aggregateMessage "wx"
           ((getExtensionPeers wState "wx").map
             (fun p => sliceLast8 p ++ ": " ++ ("boom-" ++ p))))
         ((getExtensionPeers wState "wx").map
           (fun p => sliceLast8 p ++ ": " ++ ("boom-" ++ p))),
       getExtensionPeers wState "wx", wState) := by
  exact c5_aggregate_errors wState "wx" "c" [] failAllAttempt
    (fun p => "boom-" ++ p) wExt (by rfl)
    (by rw [show getExtensionPeers wState "wx" = ["peerOne", "peerTwo"] from rfl]
        exact List.cons_ne_nil _ _)
    (fun p _ => rfl)

/-! The offer-cap claim. -/

theorem evictMin (l : List (String × Offer0)) (hne : l ≠ []) :
    ∃ e, (l.insertionSort offerLe).head? = some e ∧ e ∈ l ∧
      ∀ x ∈ l, e.2.timestamp ≤ x.2.timestamp := by
  have hperm : List.Perm (l.insertionSort offerLe) l := List.perm_insertionSort offerLe l
  have hsorted : List.Sorted offerLe (l.insertionSort offerLe) :=
    List.sorted_insertionSort offerLe l
  cases hs : l.insertionSort offerLe with
  | nil =>
    exfalso
    rw [hs] at hperm
    exact hne hperm.symm.eq_nil
  | cons e rest =>
    refine ⟨e, rfl, ?_, ?_⟩
    · have hmem : e ∈ l.insertionSort offerLe := by
        rw [hs]
        exact List.mem_cons_self e rest
      exact hperm.mem_iff.mp hmem
    · intro x hx
      have hx2 : x ∈ e :: rest := by
        rw [← hs]
        exact hperm.mem_iff.mpr hx
      rcases List.mem_cons.mp hx2 with rfl | hx3
      · exact Nat.le_refl _
      · rw [hs] at hsorted
        exact List.rel_of_sorted_cons hsorted x hx3

theorem offersAfterRecord_length (st : State0) (m : RawManifest) (publisher : String)
    (now : Nat) (h : st.offers.length ≤ MAX_OFFERS) :
    (offersAfterRecord st m publisher now).length ≤ MAX_OFFERS := by
  unfold offersAfterRecord
  have hlen : (offerInsert st m publisher now).length ≤ st.offers.length + 1 :=
    length_jsMapSet_le st.offers (manifestIdStr m)
      { manifest := m, timestamp := now, publisherPeerId := publisher }
  by_cases hc : MAX_OFFERS < (offerInsert st m publisher now).length
  · rw [if_pos hc]
    have hnn : offerInsert st m publisher now ≠ [] := by
      intro hnil
      rw [hnil] at hc
      simp [MAX_OFFERS] at hc
    obtain ⟨e, hhead, hmem, _⟩ := evictMin (offerInsert st m publisher now) hnn
    rw [hhead]
    show (jsMapDelete (offerInsert st m publisher now) e.1).length ≤ MAX_OFFERS
    have hlt := length_jsMapDelete_lt (offerInsert st m publisher now) e hmem
    unfold MAX_OFFERS at *
    omega
  · rw [if_neg hc]
    unfold MAX_OFFERS at *
    omega

theorem handleExtensionOffer_offers_eq (st : State0) (m : RawManifest)
    (publisher : String) (now : Nat) (hv : isValidManifest (some m) = true)
    (hi : isInstalled0 st (manifestIdStr m) = false) :
    (handleExtensionOffer st (some m) publisher now).offers =
      offersAfterRecord st m publisher now := by
  show (if !(isValidManifest (some m)) then st
        else if isInstalled0 st (manifestIdStr m) then st
        else { offers := offersAfterRecord st m publisher now,
               installed := st.installed }).offers =
      offersAfterRecord st m publisher now
  rw [hv, hi]
  rfl

theorem handleExtensionOffer_offers_length (st : State0) (m : Option RawManifest)
    (publisher : String) (now : Nat) (h : st.offers.length ≤ MAX_OFFERS) :
    (handleExtensionOffer st m publisher now).offers.length ≤ MAX_OFFERS := by
  cases m with
  | none => exact h
  | some mm =>
    by_cases hv : isValidManifest (some mm) = true
    · by_cases hi : isInstalled0 st (manifestIdStr mm) = true
      · have heq : (handleExtensionOffer st (some mm) publisher now).offers = st.offers := by
          show (if !(isValidManifest (some mm)) then st
                else if isInstalled0 st (manifestIdStr mm) then st
                else { offers := offersAfterRecord st mm publisher now,
                       installed := st.installed }).offers = st.offers
          rw [hv, hi]
          rfl
        rw [heq]
        exact h
      · have hib : isInstalled0 st (manifestIdStr mm) = false := by
          cases hx : isInstalled0 st (manifestIdStr mm) with
          | false => rfl
          | true => exact absurd hx hi
        rw [handleExtensionOffer_offers_eq st mm publisher now hv hib]
        exact offersAfterRecord_length st mm publisher now h
    · have hvb : isValidManifest (some mm) = false := by
        cases hx : isValidManifest (some mm) with
        | false => rfl
        | true => exact absurd hx hv
      have heq : (handleExtensionOffer st (some mm) publisher now).offers = st.offers := by
        show (if !(isValidManifest (some mm)) then st
              else if isInstalled0 st (manifestIdStr mm) then st
              else { offers := offersAfterRecord st mm publisher now,
                     installed := st.installed }).offers = st.offers
        rw [hvb]
        rfl
      rw [heq]
      exact h

theorem install0_offers_le (st : State0) (x : String) (now : Nat) :
    (installExtension0 st x now).2.offers.length ≤ st.offers.length := by
  unfold installExtension0
  cases hg : jsMapGet st.offers x with
  | none => exact Nat.le_refl _
  | some offer =>
    show (if isInstalled0 st x then (false, st)
      else (true,
        { offers := jsMapDelete st.offers x,
          installed := jsMapSet st.installed x
            { manifest := offer.manifest, installDate := now,
              enabled := true } })).2.offers.length ≤ st.offers.length
    by_cases h : isInstalled0 st x = true
    · rw [if_pos h]
    · rw [if_neg h]
      exact length_jsMapDelete_le st.offers x

theorem uninstall0_offers (st : State0) (x : String) :
    (uninstallExtension0 st x).2.offers = st.offers := by
  unfold uninstallExtension0
  by_cases h : isInstalled0 st x = true
  · rw [h]
    rfl
  · have hb : isInstalled0 st x = false := by
      cases hx : isInstalled0 st x with
      | false => rfl
      | true => exact absurd hx h
    rw [hb]
    rfl

theorem setEnabled0_offers (st : State0) (x : String) (b : Bool) :
    (setExtensionEnabled0 st x b).2.offers = st.offers := by
  unfold setExtensionEnabled0
  cases hg : jsMapGet st.installed x with
  | none => rfl
  | some ext => rfl

theorem reachable0_offers_bounded :
    ∀ st : State0, Reachable0 st → st.offers.length ≤ MAX_OFFERS := by
  intro st h
  induction h with
  | init installed => simp [MAX_OFFERS]
  | offer st m publisher now _ ih =>
    exact handleExtensionOffer_offers_length st m publisher now ih
  | install st x now _ ih =>
    exact Nat.le_trans (install0_offers_le st x now) ih
  | uninstall st x _ ih =>
    rw [uninstall0_offers st x]
    exact ih
  | setEnabled st x b _ ih =>
    rw [setEnabled0_offers st x b]
    exact ih
  | dismiss st x _ ih =>
    exact Nat.le_trans (length_jsMapDelete_le st.offers x) ih

/-- C1 (amended): in the pubsub-based registry (part_000) every reachable
state holds at most MAX_OFFERS (ten) offers, and whenever recording a
validated, not-installed offer pushes the Map beyond the cap, the entry
removed is present in the Map after insertion and its timestamp is minimal
among all entries; the identify-based registry (part_001) enforces no cap
(see the counterexample with eleven offers). -/
theorem c1_amended_cap_and_eviction :
    (∀ st : State0, Reachable0 st → st.offers.length ≤ MAX_OFFERS) ∧
    (∀ (st : State0) (m : RawManifest) (publisher : String) (now : Nat),
      isValidManifest (some m) = true →
      isInstalled0 st (manifestIdStr m) = false →
      MAX_OFFERS < (offerInsert st m publisher now).length →
      ∃ k o, (k, o) ∈ offerInsert st m publisher now ∧
        (handleExtensionOffer st (some m) publisher now).offers =
          jsMapDelete (offerInsert st m publisher now) k ∧
        ∀ e ∈ offerInsert st m publisher now, o.timestamp ≤ e.2.timestamp) := by
  constructor
  · exact reachable0_offers_bounded
  · intro st m publisher now hv hi hc
    have hnn : offerInsert st m publisher now ≠ [] := by
      intro hnil
      rw [hnil] at hc
      simp [MAX_OFFERS] at hc
    obtain ⟨e, hhead, hmem, hmin⟩ := evictMin (offerInsert st m publisher now) hnn
    refine ⟨e.1, e.2, by simpa using hmem, ?_, fun x hx => hmin x hx⟩
    rw [handleExtensionOffer_offers_eq st m publisher now hv hi]
    unfold offersAfterRecord
    rw [if_pos hc, hhead]

/-- Witness for C1: the bound at the initial state, and the eviction at a
concrete full registry receiving an eleventh offer. -/
theorem c1_witness :
    (({ offers := [], installed := [] } : State0).offers.length ≤ MAX_OFFERS) ∧
    (∃ k o, (k, o) ∈ offerInsert tenOffersState0 (mkManifest "b2") "p" 11 ∧
      (handleExtensionOffer tenOffersState0 (some (mkManifest "b2")) "p" 11).offers =
        jsMapDelete (offerInsert tenOffersState0 (mkManifest "b2") "p" 11) k ∧
      ∀ e ∈ offerInsert tenOffersState0 (mkManifest "b2") "p" 11,
        o.timestamp ≤ e.2.timestamp) :=
  ⟨c1_amended_cap_and_eviction.1 { offers := [], installed := [] } (Reachable0.init []),
   c1_amended_cap_and_eviction.2 tenOffersState0 (mkManifest "b2") "p" 11
     (by rfl) (by rfl) (by decide)⟩

/-- C1 (counterexample): the identify-based registry enforces no offer cap:
after eleven validated discoveries of distinct extensions the reachable
state holds eleven offers, violating the claimed bound of ten. -/
theorem c1_counterexample :
    Reachable1 elevenOffersState ∧ elevenOffersState.offers.length = 11 := by
  constructor
  · unfold elevenOffersState elevenIds
    simp only [List.foldl_cons, List.foldl_nil]
    repeat apply Reachable1.discovery
    exact Reachable1.init []
  · rfl
